import Mathlib

/-!
Verification of the NFA cellular-automata simulation (Mesa model).

Shallow embedding of `src/agent.py` and `src/model.py`:
  * `State` / `InputSymbol` are the NFA state set and the density input alphabet;
  * `BASE_TRANSITIONS` is `NFACAModel.BASE_TRANSITIONS`;
  * `get_transitions` is `NFACAModel.get_transitions` (rewiring by chaos bias,
    pruning of `Chaotic`, safety fallback);
  * `agent_step` / `agent_advance` are `NFACellAgent.step` / `NFACellAgent.advance`;
  * `schedule_step` is one `SimultaneousActivation.step()` (all `step`s, then all
    `advance`s);
  * `model_step` is `NFACAModel.step` (collect counts, then schedule step);
  * `initModel` is `NFACAModel.__init__`.

Randomness is embedded as explicit draw oracles: each random number the Python
code obtains from `random.random()` / `random.choices` is a rational `u` with
`0 ≤ u < 1` supplied from outside.  `random.choices(possible, weights=[p, 1-p])`
on a two-element list picks index 0 exactly when the uniform draw is `< p`
(cumulative weights `[p, 1]`, bisect right), which `choose_next` mirrors.
Float parameters are embedded as rationals: the code only compares them
(`> 0.7`, `< 0.3`, `< initial_alive`, weighted choice), never accumulates them.
-/

/-- The NFA state set of the model (`"Alive" | "Dying" | "Stable" | "Chaotic"`). -/
inductive State where
  | Alive
  | Dying
  | Stable
  | Chaotic
deriving DecidableEq, Repr

instance : Inhabited State := ⟨State.Alive⟩

open State

/-- The input alphabet derived from neighborhood density
(`"L" | "M" | "H"` in `NFACellAgent.step`). -/
inductive InputSymbol where
  | L
  | M
  | H
deriving DecidableEq, Repr

/-- `NFACAModel.BASE_TRANSITIONS`: the fixed hand-authored base table, keyed by
(current state, density symbol); each value is the ordered candidate list. -/
def BASE_TRANSITIONS : State → InputSymbol → List State
  | Alive, .L => [Alive, Stable]
  | Alive, .M => [Dying, Chaotic]
  | Alive, .H => [Chaotic, Dying]
  | Dying, .L => [Stable, Alive]
  | Dying, .M => [Chaotic, Alive]
  | Dying, .H => [Chaotic, Dying]
  | Stable, .L => [Alive, Stable]
  | Stable, .M => [Dying, Stable]
  | Stable, .H => [Chaotic, Stable]
  | Chaotic, .L => [Stable, Alive]
  | Chaotic, .M => [Alive, Dying]
  | Chaotic, .H => [Chaotic, Dying]

/-- Python's `sorted(l, key=k)` for a Boolean-valued key: a stable sort in which
an element `a` precedes `b` when `k a < k b` (`false < true`), and ties keep the
original order.  Embedded as insertion sort on `k a ≤ k b`, which is stable. -/
def pySorted (k : State → Bool) (l : List State) : List State :=
  List.insertionSort (fun a b => k a ≤ k b) l

/-- The reordering stage of `NFACAModel.get_transitions`: the candidate list for
`(st, sym)` after the chaos-bias reordering, before any pruning.
`chaos_bias > 0.7` sorts by key `s != "Chaotic"` (moves `Chaotic` to the front);
`chaos_bias < 0.3` sorts by key `s == "Chaotic"` (pushes `Chaotic` to the end);
otherwise the base list is returned unchanged (`states.copy()`). -/
def reorderedList (chaos_bias : ℚ) (st : State) (sym : InputSymbol) : List State :=
  if chaos_bias > mkRat 7 10 then
    pySorted (fun s => decide (s ≠ Chaotic)) (BASE_TRANSITIONS st sym)
  else if chaos_bias < mkRat 3 10 then
    pySorted (fun s => decide (s = Chaotic)) (BASE_TRANSITIONS st sym)
  else
    BASE_TRANSITIONS st sym

/-- The pruning stage of `NFACAModel.get_transitions` when `disable_chaotic` is
set: remove every `"Chaotic"` candidate, and if that empties the list fall back
to the single-element list `["Stable"]`. -/
def pruneChaotic (l : List State) : List State :=
  let pruned := l.filter (fun s => decide (s ≠ Chaotic))
  if pruned = [] then [Stable] else pruned

/-- `NFACAModel.get_transitions` restricted to one key: the dynamically rewired
candidate list for `(st, sym)` given the model's `chaos_bias` and
`disable_chaotic` parameters. -/
def get_transitions (chaos_bias : ℚ) (disable_chaotic : Bool) (st : State)
    (sym : InputSymbol) : List State :=
  let reordered := reorderedList chaos_bias st sym
  if disable_chaotic then pruneChaotic reordered else reordered

/-- The input-symbol classification in `NFACellAgent.step`:
`≤ 2` alive neighbors is low density, `≤ 4` medium, otherwise high. -/
def input_symbol (alive_neighbors : ℕ) : InputSymbol :=
  if alive_neighbors ≤ 2 then .L
  else if alive_neighbors ≤ 4 then .M
  else .H

/-- The nondeterministic transition choice in `NFACellAgent.step`: one possible
state is taken deterministically; otherwise
`random.choices(possible_states, weights=[branch_prob, 1 - branch_prob])`
draws a uniform `u ∈ [0,1)` and picks index 0 iff `u < branch_prob`
(cumulative weights `[branch_prob, 1]`).  `random.choices` raises unless the
list has exactly two elements here (the weight list has length 2); on
two-element lists `l.tail.headI` is `l[1]`. -/
def choose_next (branch_prob : ℚ) (possible_states : List State) (u : ℚ) : State :=
  if possible_states.length = 1 then possible_states.headI
  else if u < branch_prob then possible_states.headI
  else possible_states.tail.headI

/-- The interactive state-removal override at the end of `NFACellAgent.step`:
if chaotic behavior is disabled and the chosen state is `"Chaotic"`, force the
safe fallback `"Stable"`. -/
def chaotic_override (disable_chaotic : Bool) (s : State) : State :=
  if disable_chaotic ∧ s = Chaotic then Stable else s

/-- One grid cell / agent: current state and the staged next state
(`NFACellAgent.state`, `NFACellAgent.next_state`). -/
structure Cell where
  state : State
  next_state : State
deriving DecidableEq, Repr

/-- A grid coordinate of the fixed 20×20 grid. -/
abbrev Pos := Fin 20 × Fin 20

/-- The eight Moore offsets on the torus; `19 ≡ -1 (mod 20)`. -/
def mooreOffsets : List (Fin 20 × Fin 20) :=
  [(19, 19), (19, 0), (19, 1), (0, 19), (0, 1), (1, 19), (1, 0), (1, 1)]

/-- `grid.get_neighbors(pos, moore=True, include_center=False)` on the toroidal
20×20 `MultiGrid`: the eight surrounding coordinates with wrap-around. -/
def mooreNeighbors (p : Pos) : List Pos :=
  mooreOffsets.map (fun d => (p.1 + d.1, p.2 + d.2))

/-- `sum(1 for n in neighbors if n.state == "Alive")` in `NFACellAgent.step`. -/
def alive_neighbors (g : Pos → Cell) (p : Pos) : ℕ :=
  (mooreNeighbors p).countP (fun q => decide ((g q).state = Alive))

/-- The next state computed by `NFACellAgent.step` for the agent at `p`:
count alive Moore neighbors, classify density, fetch the rewired transitions,
resolve nondeterminism with draw `u`, then apply the chaotic override. -/
def agent_step (branch_prob chaos_bias : ℚ) (disable_chaotic : Bool)
    (g : Pos → Cell) (p : Pos) (u : ℚ) : State :=
  let sym := input_symbol (alive_neighbors g p)
  let possible_states := get_transitions chaos_bias disable_chaotic (g p).state sym
  chaotic_override disable_chaotic (choose_next branch_prob possible_states u)

/-- The compute phase of `SimultaneousActivation.step()`: every agent runs
`step()`, which writes only its own staged `next_state` slot. -/
def compute_phase (branch_prob chaos_bias : ℚ) (disable_chaotic : Bool)
    (draws : Pos → ℚ) (g : Pos → Cell) : Pos → Cell :=
  fun p => { g p with next_state := agent_step branch_prob chaos_bias disable_chaotic g p (draws p) }

/-- The commit phase of `SimultaneousActivation.step()`: every agent runs
`advance()`, i.e. `self.state = self.next_state`. -/
def advance_phase (g : Pos → Cell) : Pos → Cell :=
  fun p => { g p with state := (g p).next_state }

/-- One `SimultaneousActivation.step()`: all computes, then all commits. -/
def schedule_step (branch_prob chaos_bias : ℚ) (disable_chaotic : Bool)
    (draws : Pos → ℚ) (g : Pos → Cell) : Pos → Cell :=
  advance_phase (compute_phase branch_prob chaos_bias disable_chaotic draws g)

/-- The grid after `n` schedule steps, with `draws k` the per-cell uniform
draws used at step `k`. -/
def simulate (branch_prob chaos_bias : ℚ) (disable_chaotic : Bool)
    (draws : ℕ → Pos → ℚ) (g : Pos → Cell) : ℕ → (Pos → Cell)
  | 0 => g
  | n + 1 => schedule_step branch_prob chaos_bias disable_chaotic (draws n)
      (simulate branch_prob chaos_bias disable_chaotic draws g n)

/-- The grid built by `NFACAModel.__init__`: each cell starts `"Alive"` when its
`random.random()` draw is `< initial_alive`, else `"Stable"`; the agent
constructor sets `next_state = state`. -/
def initGrid (initial_alive : ℚ) (initDraws : Pos → ℚ) : Pos → Cell :=
  fun p =>
    let s := if initDraws p < initial_alive then Alive else Stable
    { state := s, next_state := s }

/-- `NFACAModel.count_state`: the number of agents whose current state is `s`. -/
def count_state (g : Pos → Cell) (s : State) : ℕ :=
  (Finset.univ.filter (fun p : Pos => (g p).state = s)).card

/-- One row collected by the `DataCollector`: the `Alive`, `Dying`, `Stable`,
`Chaotic` counts of a grid. -/
def state_counts (g : Pos → Cell) : ℕ × ℕ × ℕ × ℕ :=
  (count_state g Alive, count_state g Dying, count_state g Stable, count_state g Chaotic)

/-- `NFACAModel`: the stored parameters, the grid of agents, and the rows
collected so far by the `DataCollector`. -/
structure NFACAModel where
  branch_prob : ℚ
  chaos_bias : ℚ
  disable_chaotic : Bool
  grid : Pos → Cell
  collected : List (ℕ × ℕ × ℕ × ℕ)

/-- `NFACAModel.__init__(initial_alive, branch_prob, chaos_bias, disable_chaotic)`:
stores the parameters unchecked, builds the 20×20 grid of agents, and starts
with an empty data collection.  The constructor performs no range validation. -/
def initModel (initial_alive branch_prob chaos_bias : ℚ) (disable_chaotic : Bool)
    (initDraws : Pos → ℚ) : NFACAModel :=
  { branch_prob := branch_prob
    chaos_bias := chaos_bias
    disable_chaotic := disable_chaotic
    grid := initGrid initial_alive initDraws
    collected := [] }

/-- `NFACAModel.step`: first `datacollector.collect(self)` records the counts of
the current (pre-step) grid, then `schedule.step()` runs the simultaneous
update. -/
def model_step (m : NFACAModel) (draws : Pos → ℚ) : NFACAModel :=
  { m with
    collected := m.collected ++ [state_counts m.grid]
    grid := schedule_step m.branch_prob m.chaos_bias m.disable_chaotic draws m.grid }

/-- The model after `n` calls to `NFACAModel.step`. -/
def run_model (m : NFACAModel) (draws : ℕ → Pos → ℚ) : ℕ → NFACAModel
  | 0 => m
  | n + 1 => model_step (run_model m draws n) (draws n)

/-- Spec description of the high-bias reordering: the `Chaotic`-valued
candidates, in base order, precede all others, which also keep base order. -/
def chaoticFirstSpec (l : List State) : List State :=
  l.filter (fun s => decide (s = Chaotic)) ++ l.filter (fun s => decide (s ≠ Chaotic))

/-- Spec description of the low-bias reordering: the `Chaotic`-valued
candidates follow all others, both sides keeping base order. -/
def chaoticLastSpec (l : List State) : List State :=
  l.filter (fun s => decide (s ≠ Chaotic)) ++ l.filter (fun s => decide (s = Chaotic))

/-- The set of uniform draws in `[0,1)` for which the transition resolution
picks `Chaotic` from the candidate list `l` under branch probability `p`. -/
def chaoticDraws (p : ℚ) (l : List State) : Set ℚ :=
  {u | 0 ≤ u ∧ u < 1 ∧ choose_next p l u = Chaotic}

/-! ## Helper lemmas -/

/-- High chaos bias reorders a base entry into the Chaotic-first stable partition. -/
lemma reorderedList_of_hi {b : ℚ} (h : b > mkRat 7 10) (st : State) (sym : InputSymbol) :
    reorderedList b st sym = chaoticFirstSpec (BASE_TRANSITIONS st sym) := by
  unfold reorderedList
  rw [if_pos h]
  cases st <;> cases sym <;> decide

/-- Low chaos bias reorders a base entry into the Chaotic-last stable partition. -/
lemma reorderedList_of_lo {b : ℚ} (h : b < mkRat 3 10) (st : State) (sym : InputSymbol) :
    reorderedList b st sym = chaoticLastSpec (BASE_TRANSITIONS st sym) := by
  unfold reorderedList
  rw [if_neg (not_lt.mpr (le_of_lt (lt_trans h (by decide)))), if_pos h]
  cases st <;> cases sym <;> decide

/-- Mid-range chaos bias (including both boundaries) leaves base entries unchanged. -/
lemma reorderedList_of_mid {b : ℚ} (h1 : mkRat 3 10 ≤ b) (h2 : b ≤ mkRat 7 10)
    (st : State) (sym : InputSymbol) :
    reorderedList b st sym = BASE_TRANSITIONS st sym := by
  unfold reorderedList
  rw [if_neg (not_lt.mpr h2), if_neg (not_lt.mpr h1)]

/-- Every reordered candidate list is one of the three partitions of its base entry. -/
lemma reorderedList_cases (b : ℚ) (st : State) (sym : InputSymbol) :
    reorderedList b st sym = chaoticFirstSpec (BASE_TRANSITIONS st sym) ∨
    reorderedList b st sym = chaoticLastSpec (BASE_TRANSITIONS st sym) ∨
    reorderedList b st sym = BASE_TRANSITIONS st sym := by
  by_cases h1 : b > mkRat 7 10
  · exact Or.inl (reorderedList_of_hi h1 st sym)
  · by_cases h2 : b < mkRat 3 10
    · exact Or.inr (Or.inl (reorderedList_of_lo h2 st sym))
    · exact Or.inr (Or.inr (reorderedList_of_mid (not_lt.mp h2) (not_lt.mp h1) st sym))

/-- Reordering never changes the length of a base entry (always 2). -/
lemma reorderedList_length (b : ℚ) (st : State) (sym : InputSymbol) :
    (reorderedList b st sym).length = 2 := by
  have hbase : (BASE_TRANSITIONS st sym).length = 2 := by cases st <;> cases sym <;> rfl
  unfold reorderedList pySorted
  split_ifs <;> simp [List.length_insertionSort, hbase]

/-- The pruning stage never returns an empty list. -/
lemma pruneChaotic_ne_nil (l : List State) : pruneChaotic l ≠ [] := by
  simp only [pruneChaotic]
  split_ifs with h
  · simp
  · exact h

/-- The rewired table never returns an empty candidate list. -/
lemma get_transitions_ne_nil (b : ℚ) (d : Bool) (st : State) (sym : InputSymbol) :
    get_transitions b d st sym ≠ [] := by
  unfold get_transitions
  cases d
  · simpa using List.ne_nil_of_length_pos (by rw [reorderedList_length]; norm_num)
  · simpa using pruneChaotic_ne_nil (reorderedList b st sym)

/-- On a two-element candidate list the weighted choice picks index 0 iff the
uniform draw is below the branch probability. -/
lemma choose_next_pair (q u : ℚ) (a b : State) :
    choose_next q [a, b] u = if u < q then a else b := by
  unfold choose_next
  rw [if_neg (by simp)]
  split_ifs <;> rfl

/-! ## Claim theorems: transition table and per-cell resolution -/

/-- C3: in per-cell transition resolution, a single candidate is taken
deterministically; with exactly two candidates, `candidate[0]` is chosen
exactly when the uniform draw `u ∈ [0,1)` is below `branch_prob` (so it is
chosen with probability `branch_prob`, and `candidate[1]` with probability
`1 - branch_prob`); with `branch_prob = 1` the first candidate is always
chosen, and with `branch_prob = 0` always the second. -/
theorem C3_resolution (p : ℚ) (c0 c1 s : State) (u : ℚ) (h0 : 0 ≤ u) (h1 : u < 1) :
    choose_next p [s] u = s ∧
    choose_next p [c0, c1] u = (if u < p then c0 else c1) ∧
    choose_next 1 [c0, c1] u = c0 ∧
    choose_next 0 [c0, c1] u = c1 := by
  refine ⟨rfl, choose_next_pair p u c0 c1, ?_, ?_⟩
  · rw [choose_next_pair, if_pos h1]
  · rw [choose_next_pair, if_neg (not_lt.mpr h0)]

/-- Witness for C3 at `branch_prob = 3/4`, draw `u = 1/2`. -/
theorem C3_resolution_witness :
    choose_next (mkRat 3 4) [Stable] (mkRat 1 2) = Stable ∧
    choose_next (mkRat 3 4) [Alive, Dying] (mkRat 1 2) =
      (if (mkRat 1 2 : ℚ) < mkRat 3 4 then Alive else Dying) ∧
    choose_next 1 [Alive, Dying] (mkRat 1 2) = Alive ∧
    choose_next 0 [Alive, Dying] (mkRat 1 2) = Dying :=
  C3_resolution (mkRat 3 4) Alive Dying Stable (mkRat 1 2) (by decide) (by decide)

/-- C4: for every base-table entry, the candidate list before pruning is the
Chaotic-first stable partition of the base list when `chaos_bias > 0.7`, the
Chaotic-last stable partition when `chaos_bias < 0.3`, and the base list
unchanged otherwise; in particular at `chaos_bias` exactly `0.7` and exactly
`0.3` the base order is unchanged (half-open comparisons).  The stable
partitions keep the base relative order among candidates with equal keys. -/
theorem C4_reordering (b : ℚ) (st : State) (sym : InputSymbol) :
    (reorderedList b st sym =
      if b > mkRat 7 10 then chaoticFirstSpec (BASE_TRANSITIONS st sym)
      else if b < mkRat 3 10 then chaoticLastSpec (BASE_TRANSITIONS st sym)
      else BASE_TRANSITIONS st sym) ∧
    reorderedList (mkRat 7 10) st sym = BASE_TRANSITIONS st sym ∧
    reorderedList (mkRat 3 10) st sym = BASE_TRANSITIONS st sym := by
  refine ⟨?_, reorderedList_of_mid (by decide) (by decide) st sym,
    reorderedList_of_mid (by decide) (by decide) st sym⟩
  by_cases h1 : b > mkRat 7 10
  · rw [if_pos h1]
    exact reorderedList_of_hi h1 st sym
  · rw [if_neg h1]
    by_cases h2 : b < mkRat 3 10
    · rw [if_pos h2]
      exact reorderedList_of_lo h2 st sym
    · rw [if_neg h2]
      exact reorderedList_of_mid (not_lt.mp h2) (not_lt.mp h1) st sym

/-- C5: the rewired candidate list is non-empty for every state, symbol,
chaos bias and disable flag; and whenever pruning empties a list, the pruning
stage replaces it by the single-element list `[Stable]`. -/
theorem C5_nonempty (b : ℚ) (d : Bool) (st : State) (sym : InputSymbol)
    (l : List State) (hl : l.filter (fun s => decide (s ≠ Chaotic)) = []) :
    get_transitions b d st sym ≠ [] ∧ pruneChaotic l = [Stable] := by
  refine ⟨get_transitions_ne_nil b d st sym, ?_⟩
  simp only [pruneChaotic, hl, if_pos]

/-- Witness for C5 at `chaos_bias = 1/2`, both flag values represented by
`d = true`, entry `(Alive, L)`, and the all-Chaotic list `[Chaotic]`. -/
theorem C5_nonempty_witness :
    ([Chaotic].filter (fun s => decide (s ≠ Chaotic)) = []) ∧
    (get_transitions (mkRat 1 2) true Alive .L ≠ [] ∧ pruneChaotic [Chaotic] = [Stable]) :=
  ⟨by decide, C5_nonempty (mkRat 1 2) true Alive .L [Chaotic] (by decide)⟩

/-- C10: every base entry has exactly 2 candidates with at most one `Chaotic`;
every rewired candidate list has length exactly 1 or exactly 2; and whenever
the probabilistic branch is reached (length not 1) the list has length exactly
2, matching the two-element weight list `[branch_prob, 1 - branch_prob]`. -/
theorem C10_lengths (b : ℚ) (d : Bool) (st : State) (sym : InputSymbol)
    (hne : (get_transitions b d st sym).length ≠ 1) :
    (BASE_TRANSITIONS st sym).length = 2 ∧
    (BASE_TRANSITIONS st sym).countP (fun s => decide (s = Chaotic)) ≤ 1 ∧
    ((get_transitions b d st sym).length = 1 ∨ (get_transitions b d st sym).length = 2) ∧
    (get_transitions b d st sym).length = 2 := by
  have hlen : (get_transitions b d st sym).length = 1 ∨
      (get_transitions b d st sym).length = 2 := by
    rcases reorderedList_cases b st sym with h | h | h <;>
      · unfold get_transitions
        rw [h]
        cases d <;> cases st <;> cases sym <;> decide
  refine ⟨by cases st <;> cases sym <;> rfl, by cases st <;> cases sym <;> decide, hlen, ?_⟩
  rcases hlen with h | h
  · exact absurd h hne
  · exact h

/-- Witness for C10 at `chaos_bias = 1/2`, `disable_chaotic = false`,
entry `(Alive, L)` (rewired list `[Alive, Stable]`, length 2). -/
theorem C10_lengths_witness :
    ((get_transitions (mkRat 1 2) false Alive .L).length ≠ 1) ∧
    ((BASE_TRANSITIONS Alive .L).length = 2 ∧
      (BASE_TRANSITIONS Alive .L).countP (fun s => decide (s = Chaotic)) ≤ 1 ∧
      ((get_transitions (mkRat 1 2) false Alive .L).length = 1 ∨
        (get_transitions (mkRat 1 2) false Alive .L).length = 2) ∧
      (get_transitions (mkRat 1 2) false Alive .L).length = 2) :=
  ⟨by decide, C10_lengths (mkRat 1 2) false Alive .L (by decide)⟩

/-! ## Claim theorems: whole-simulation invariants -/

/-- When the disable flag is set, the rewired table never offers `Chaotic`. -/
lemma chaotic_not_mem_get_transitions (b : ℚ) (st : State) (sym : InputSymbol) :
    Chaotic ∉ get_transitions b true st sym := by
  have h : get_transitions b true st sym = pruneChaotic (reorderedList b st sym) := rfl
  rw [h]
  simp only [pruneChaotic]
  split_ifs with hemp
  · decide
  · intro hmem
    have hp := List.of_mem_filter hmem
    simp at hp

/-- With the disable flag set, the post-resolution override never commits `Chaotic`. -/
lemma chaotic_override_ne_chaotic (s : State) : chaotic_override true s ≠ Chaotic := by
  unfold chaotic_override
  split_ifs with h
  · decide
  · exact fun hs => h ⟨rfl, hs⟩

/-- With the disable flag set, no agent ever stages `Chaotic`. -/
lemma agent_step_ne_chaotic (bp cb : ℚ) (g : Pos → Cell) (p : Pos) (u : ℚ) :
    agent_step bp cb true g p u ≠ Chaotic :=
  chaotic_override_ne_chaotic _

/-- C1: with `disable_chaotic` set, starting from the constructor's grid (drawn
from `{Alive, Stable}` only), no cell is ever in state `Chaotic` at any step;
no rewired candidate list contains `Chaotic`; and the post-resolution override
maps a resolved `Chaotic` to `Stable` before commit. -/
theorem C1_chaotic_exclusion (bp cb : ℚ) (dc : Bool) (hdc : dc = true) (ia : ℚ)
    (d0 : Pos → ℚ) (draws : ℕ → Pos → ℚ) :
    (∀ n p, (simulate bp cb dc draws (initGrid ia d0) n p).state ≠ Chaotic) ∧
    (∀ st sym, Chaotic ∉ get_transitions cb dc st sym) ∧
    chaotic_override dc Chaotic = Stable := by
  subst hdc
  refine ⟨?_, fun st sym => chaotic_not_mem_get_transitions cb st sym, rfl⟩
  intro n p
  cases n with
  | zero =>
      show (initGrid ia d0 p).state ≠ Chaotic
      simp only [initGrid]
      split_ifs <;> decide
  | succ n =>
      show (schedule_step bp cb true (draws n)
        (simulate bp cb true draws (initGrid ia d0) n) p).state ≠ Chaotic
      exact agent_step_ne_chaotic bp cb _ p (draws n p)

/-- Witness for C1: a concrete configuration with `disable_chaotic` set, run
for 3 steps and observed at cell (0,0). -/
theorem C1_chaotic_exclusion_witness :
    (simulate (mkRat 1 2) (mkRat 1 2) true (fun _ _ => mkRat 1 2)
      (initGrid (mkRat 1 2) (fun _ => 0)) 3 ((0 : Fin 20), (0 : Fin 20))).state ≠ Chaotic :=
  (C1_chaotic_exclusion (mkRat 1 2) (mkRat 1 2) true rfl (mkRat 1 2) (fun _ => 0)
    (fun _ _ => mkRat 1 2)).1 3 ((0 : Fin 20), (0 : Fin 20))

/-- Alive-neighbor counts agree on grids that agree on the Moore neighborhood. -/
lemma alive_neighbors_congr (g g' : Pos → Cell) (p : Pos)
    (h : ∀ q ∈ mooreNeighbors p, (g q).state = (g' q).state) :
    alive_neighbors g p = alive_neighbors g' p := by
  unfold alive_neighbors
  exact List.countP_congr (fun q hq => by rw [h q hq])

/-- C2: a cell's committed next state after one synchronous step is a function
only of the pre-step states of the cell and its 8 Moore neighbors plus its own
draw (changing anything else, including any neighbor's staged or post-step
value, cannot change the result); and the compute phase leaves every cell's
visible `state` unchanged, writing only the staged `next_state` slot. -/
theorem C2_simultaneity (bp cb : ℚ) (dc : Bool) (draws draws' : Pos → ℚ)
    (g g' : Pos → Cell) (p : Pos)
    (hself : (g p).state = (g' p).state)
    (hnb : ∀ q ∈ mooreNeighbors p, (g q).state = (g' q).state)
    (hdraw : draws p = draws' p) :
    (schedule_step bp cb dc draws g p).state = (schedule_step bp cb dc draws' g' p).state ∧
    (∀ q, (compute_phase bp cb dc draws g q).state = (g q).state) := by
  constructor
  · show agent_step bp cb dc g p (draws p) = agent_step bp cb dc g' p (draws' p)
    unfold agent_step
    rw [alive_neighbors_congr g g' p hnb, hself, hdraw]
  · intro q
    rfl

/-- An all-Stable grid used by the C2 witness. -/
def stableGrid : Pos → Cell := fun _ => { state := Stable, next_state := Stable }

/-- A grid differing from `stableGrid` only at (5,5), outside the Moore
neighborhood of (0,0); used by the C2 witness. -/
def stableGridTweaked : Pos → Cell := fun q =>
  if q = ((5 : Fin 20), (5 : Fin 20)) then { state := Alive, next_state := Alive }
  else { state := Stable, next_state := Stable }

set_option maxRecDepth 4000 in
/-- Witness for C2: cell (0,0) computes the same committed state on
`stableGrid` and on `stableGridTweaked` (which differ at the far cell (5,5)). -/
theorem C2_simultaneity_witness :
    (schedule_step (mkRat 1 2) (mkRat 1 2) false (fun _ => 0) stableGrid
        ((0 : Fin 20), (0 : Fin 20))).state =
      (schedule_step (mkRat 1 2) (mkRat 1 2) false (fun _ => 0) stableGridTweaked
        ((0 : Fin 20), (0 : Fin 20))).state ∧
    (∀ q, (compute_phase (mkRat 1 2) (mkRat 1 2) false (fun _ => 0) stableGrid q).state =
      (stableGrid q).state) :=
  C2_simultaneity (mkRat 1 2) (mkRat 1 2) false (fun _ => 0) (fun _ => 0)
    stableGrid stableGridTweaked ((0 : Fin 20), (0 : Fin 20))
    (by decide) (by decide) rfl

/-- Every grid of cells has per-state counts summing to the population 400:
each cell is in exactly one of the four states. -/
lemma count_state_sum (g : Pos → Cell) :
    count_state g Alive + count_state g Dying + count_state g Stable +
      count_state g Chaotic = 400 := by
  unfold count_state
  rw [Finset.card_filter, Finset.card_filter, Finset.card_filter, Finset.card_filter,
    ← Finset.sum_add_distrib, ← Finset.sum_add_distrib, ← Finset.sum_add_distrib]
  have h : ∀ p : Pos,
      ((if (g p).state = Alive then 1 else 0) + (if (g p).state = Dying then 1 else 0) +
        (if (g p).state = Stable then 1 else 0) +
        (if (g p).state = Chaotic then 1 else 0)) = 1 := by
    intro p
    cases hs : (g p).state <;> simp [hs]
  rw [Finset.sum_congr rfl (fun p _ => h p)]
  simp

/-- C6: at every step of the simulation (starting from the constructor's
grid), the four per-state counts sum to width × height = 400; no cell is ever
created or destroyed, and every cell is in exactly one of the four states. -/
theorem C6_conservation (bp cb ia : ℚ) (dc : Bool) (d0 : Pos → ℚ)
    (draws : ℕ → Pos → ℚ) (n : ℕ) :
    count_state (simulate bp cb dc draws (initGrid ia d0) n) Alive +
      count_state (simulate bp cb dc draws (initGrid ia d0) n) Dying +
      count_state (simulate bp cb dc draws (initGrid ia d0) n) Stable +
      count_state (simulate bp cb dc draws (initGrid ia d0) n) Chaotic = 400 :=
  count_state_sum _

/-- The parameters stored at construction are unchanged by stepping. -/
lemma run_model_params (m : NFACAModel) (draws : ℕ → Pos → ℚ) (n : ℕ) :
    (run_model m draws n).branch_prob = m.branch_prob ∧
    (run_model m draws n).chaos_bias = m.chaos_bias ∧
    (run_model m draws n).disable_chaotic = m.disable_chaotic := by
  induction n with
  | zero => exact ⟨rfl, rfl, rfl⟩
  | succ n ih => simpa [run_model, model_step] using ih

/-- The grid after `n` model steps is the grid after `n` schedule steps. -/
lemma run_model_grid (m : NFACAModel) (draws : ℕ → Pos → ℚ) (n : ℕ) :
    (run_model m draws n).grid =
      simulate m.branch_prob m.chaos_bias m.disable_chaotic draws m.grid n := by
  induction n with
  | zero => rfl
  | succ n ih =>
      obtain ⟨h1, h2, h3⟩ := run_model_params m draws n
      simp [run_model, model_step, simulate, ih, h1, h2, h3]

/-- C9: after `n` calls to `NFACAModel.step`, the collected rows are exactly
the per-state counts of the grid at the start of each step: row `k` holds the
counts of the grid after `k` steps, sampled before step `k`'s transitions. -/
theorem C9_collection (ia bp cb : ℚ) (dc : Bool) (d0 : Pos → ℚ)
    (draws : ℕ → Pos → ℚ) (n : ℕ) :
    (run_model (initModel ia bp cb dc d0) draws n).collected =
      (List.range n).map
        (fun k => state_counts (simulate bp cb dc draws (initGrid ia d0) k)) := by
  induction n with
  | zero => rfl
  | succ n ih =>
      have hg := run_model_grid (initModel ia bp cb dc d0) draws n
      simp only [run_model, model_step, ih, hg, List.range_succ, List.map_append,
        List.map_cons, List.map_nil]
      rfl

/-! ## Claim theorems: bias monotonicity and construction -/

/-- With `Chaotic` first in a two-element list, the draws selecting `Chaotic`
form exactly the interval `[0, q)` (length = branch probability `q`). -/
lemma chaoticDraws_chaotic_first (q : ℚ) (hq1 : q ≤ 1) (c : State) (hc : c ≠ Chaotic) :
    chaoticDraws q [Chaotic, c] = Set.Ico 0 q := by
  ext u
  simp only [chaoticDraws, Set.mem_setOf_eq, Set.mem_Ico, choose_next_pair]
  constructor
  · rintro ⟨h0, _, hch⟩
    refine ⟨h0, ?_⟩
    by_cases hlt : u < q
    · exact hlt
    · rw [if_neg hlt] at hch
      exact absurd hch hc
  · rintro ⟨h0, hq⟩
    exact ⟨h0, lt_of_lt_of_le hq hq1, by rw [if_pos hq]⟩

/-- With `Chaotic` last in a two-element list, the draws selecting `Chaotic`
form exactly the interval `[q, 1)` (length = `1 - q`). -/
lemma chaoticDraws_chaotic_last (q : ℚ) (hq0 : 0 ≤ q) (c : State) (hc : c ≠ Chaotic) :
    chaoticDraws q [c, Chaotic] = Set.Ico q 1 := by
  ext u
  simp only [chaoticDraws, Set.mem_setOf_eq, Set.mem_Ico, choose_next_pair]
  constructor
  · rintro ⟨_, h1, hch⟩
    refine ⟨?_, h1⟩
    by_cases hlt : u < q
    · rw [if_pos hlt] at hch
      exact absurd hch hc
    · exact not_lt.mp hlt
  · rintro ⟨hq, h1⟩
    exact ⟨le_trans hq0 hq, h1, by rw [if_neg (not_lt.mpr hq)]⟩

/-- For every base entry containing `Chaotic`, bias 0.8 yields the list
`[Chaotic, c]` and bias 0.2 the list `[c, Chaotic]`, with the same non-Chaotic
companion `c`. -/
lemma get_transitions_biased (st : State) (sym : InputSymbol)
    (hC : Chaotic ∈ BASE_TRANSITIONS st sym) :
    ∃ c, c ≠ Chaotic ∧
      get_transitions (mkRat 8 10) false st sym = [Chaotic, c] ∧
      get_transitions (mkRat 2 10) false st sym = [c, Chaotic] := by
  cases st <;> cases sym <;>
    first
      | exact absurd hC (by decide)
      | exact ⟨Dying, by decide, by decide, by decide⟩
      | exact ⟨Alive, by decide, by decide, by decide⟩
      | exact ⟨Stable, by decide, by decide, by decide⟩

/-- Counterexample to C7 as stated: at `branch_prob = 0` (a value in `[0,1]`),
for the Chaotic-containing entry `(Alive, M)` with `Chaotic` enabled, the set
of uniform draws selecting `Chaotic` under `chaos_bias = 0.8` is empty
(probability 0), while under `chaos_bias = 0.2` it contains the draw `1/2`
(indeed it is all of `[0,1)`, probability 1): raising the bias from 0.2 to 0.8
strictly decreases the frequency of selecting `Chaotic`. -/
theorem C7_counterexample :
    ((0 : ℚ) ≤ 0 ∧ (0 : ℚ) ≤ 1) ∧
    chaoticDraws 0 (get_transitions (mkRat 8 10) false Alive .M) = ∅ ∧
    mkRat 1 2 ∈ chaoticDraws 0 (get_transitions (mkRat 2 10) false Alive .M) := by
  refine ⟨⟨le_refl 0, by norm_num⟩, ?_, ?_⟩
  · rw [show get_transitions (mkRat 8 10) false Alive .M = [Chaotic, Dying] from by decide,
      chaoticDraws_chaotic_first 0 (by norm_num) Dying (by decide)]
    simp
  · rw [show get_transitions (mkRat 2 10) false Alive .M = [Dying, Chaotic] from by decide,
      chaoticDraws_chaotic_last 0 (le_refl 0) Dying (by decide)]
    constructor <;> decide

/-- C7 amended: for a fixed `branch_prob = p` with `1/2 ≤ p ≤ 1` (the claim
fails for `p < 1/2`, see the counterexample), and any base entry containing
`Chaotic` with `Chaotic` enabled, the draws selecting `Chaotic` under
`chaos_bias = 0.8` form `[0, p)` (probability `p`) and under
`chaos_bias = 0.2` form `[p, 1)` (probability `1 - p`), and
`1 - p ≤ p`: the selection probability does not decrease. -/
theorem C7_amended (p : ℚ) (h0 : 0 ≤ p) (h1 : p ≤ 1) (hp : 1/2 ≤ p)
    (st : State) (sym : InputSymbol) (hC : Chaotic ∈ BASE_TRANSITIONS st sym) :
    chaoticDraws p (get_transitions (mkRat 8 10) false st sym) = Set.Ico 0 p ∧
    chaoticDraws p (get_transitions (mkRat 2 10) false st sym) = Set.Ico p 1 ∧
    1 - p ≤ p := by
  obtain ⟨c, hc, h8, h2⟩ := get_transitions_biased st sym hC
  refine ⟨?_, ?_, by linarith⟩
  · rw [h8]
    exact chaoticDraws_chaotic_first p h1 c hc
  · rw [h2]
    exact chaoticDraws_chaotic_last p h0 c hc

/-- Witness for the amended C7 at `p = 1`, entry `(Alive, M)`. -/
theorem C7_amended_witness :
    chaoticDraws 1 (get_transitions (mkRat 8 10) false Alive .M) = Set.Ico 0 1 ∧
    chaoticDraws 1 (get_transitions (mkRat 2 10) false Alive .M) = Set.Ico 1 1 ∧
    (1 : ℚ) - 1 ≤ 1 :=
  C7_amended 1 (by norm_num) (by norm_num) (by norm_num) Alive .M (by decide)

/-- Counterexample to C8 as stated: `initial_alive = 2` lies outside `[0,1]`,
yet `NFACAModel.__init__` performs no range validation: construction succeeds
and yields a ready-to-step model (empty collection, cell (0,0) initialized to
`Alive` because its draw `1/2 < 2`).  No configuration error is signaled. -/
theorem C8_counterexample :
    ¬ ((2 : ℚ) ≤ 1) ∧
    (initModel 2 (mkRat 1 2) (mkRat 1 2) false (fun _ => mkRat 1 2)).collected = [] ∧
    ((initModel 2 (mkRat 1 2) (mkRat 1 2) false
        (fun _ => mkRat 1 2)).grid ((0 : Fin 20), (0 : Fin 20))).state = Alive := by
  refine ⟨by norm_num, rfl, ?_⟩
  show (initGrid 2 (fun _ => mkRat 1 2) ((0 : Fin 20), (0 : Fin 20))).state = Alive
  simp only [initGrid]
  rw [if_pos (by decide : (mkRat 1 2 : ℚ) < 2)]

/-- C8 amended: construction never fails and performs no parameter validation:
for every parameter assignment, including probabilities outside `[0,1]`,
`NFACAModel.__init__` produces a started model with an empty collection and a
well-formed initial grid (every cell `Alive` or `Stable`, staged slot equal to
the current state). -/
theorem C8_amended (ia bp cb : ℚ) (dc : Bool) (d0 : Pos → ℚ) :
    (initModel ia bp cb dc d0).collected = [] ∧
    (∀ p : Pos, ((initModel ia bp cb dc d0).grid p).state = Alive ∨
      ((initModel ia bp cb dc d0).grid p).state = Stable) ∧
    (∀ p : Pos, ((initModel ia bp cb dc d0).grid p).next_state =
      ((initModel ia bp cb dc d0).grid p).state) := by
  refine ⟨rfl, ?_, fun p => rfl⟩
  intro p
  show (initGrid ia d0 p).state = Alive ∨ (initGrid ia d0 p).state = Stable
  simp only [initGrid]
  split_ifs <;> simp
